import Mathlib

/-!
Verification of the sales-analysis pipeline (`analise.py`, `analise_avancada.py`).

The two scripts operate on a pandas DataFrame of sales transactions with columns
`date, product, region, price, quantity`.  We shallowly embed the table as a
`List` of records, numeric columns as `ℚ` (the scripts use machine floats; all
claims under study are about exact algebraic relationships, which we state over
`ℚ`), and dates as natural-number day indices where day 0 is a Monday (so
`day_name` is the index mod 7 and consecutive ISO weeks are consecutive blocks
of 7 days, making `isocalendar().week` the index divided by 7, up to a constant
offset that no claim depends on).  A missing value (`NaN` produced by `pd.cut`
outside all bins, or by an aggregation) is `Option.none`.
-/

namespace SalesAnalysis

/-- One raw transaction, a row of `sales.csv` after type coercion
(`pd.to_datetime` on `date`, numeric `price`/`quantity`).  Rows with nulls are
dropped by `dropna` before any field is used, so the embedded raw row carries
total fields. -/
structure RawRow where
  date : ℕ
  product : String
  region : String
  price : ℚ
  quantity : ℚ
deriving DecidableEq, Repr, Inhabited

/-- Embeds `DataFrame.drop_duplicates()`: keep the first occurrence of every
full field tuple, preserving row order. -/
def dropDuplicates (rows : List RawRow) : List RawRow :=
  rows.foldl (fun acc r => if acc.contains r then acc else acc ++ [r]) []

/-- The derived `revenue` value of a raw row: `price * quantity`
(line `df['revenue'] = df['price'] * df['quantity']`, present in both
scripts). -/
def rawRevenue (r : RawRow) : ℚ := r.price * r.quantity

/-- Arithmetic mean of a list of rationals (division by zero yields 0 for the
empty list; every use below is on a nonempty list). -/
def mean (xs : List ℚ) : ℚ := xs.sum / xs.length

/-- The last `n` elements of a list (all of them when it is shorter). -/
def lastN (n : ℕ) (xs : List ℚ) : List ℚ := xs.drop (xs.length - n)

/-- Value of `rolling(window=7, min_periods=1).mean()` at position `k` of a
series: the mean of the trailing at-most-7 observations ending at `k`. -/
def rollingMean7 (xs : List ℚ) (k : ℕ) : ℚ := mean (lastN 7 (xs.take (k + 1)))

/-- The series that `groupby('product')['revenue']` forms for product `p`:
the revenues of the rows of that product, in frame row order (`groupby`
preserves the original order of rows inside each group; it never sorts by
date). -/
def groupSeries (rows : List RawRow) (p : String) : List ℚ :=
  (rows.filter (fun r => r.product = p)).map rawRevenue

/-- Position of row `i` inside its product group: the number of earlier rows
with the same product. -/
def rankWithin (rows : List RawRow) (i : ℕ) (p : String) : ℕ :=
  ((rows.take i).filter (fun r => r.product = p)).length

/-- Embeds the `revenue_ma7` column:
`groupby('product')['revenue'].transform(lambda x: x.rolling(window=7, min_periods=1).mean())`.
`transform` aligns each group's rolling mean back to the original row
positions, so row `i` receives the rolling mean of its product's series at the
row's within-group rank. -/
def ma7Column (rows : List RawRow) : List ℚ :=
  (List.range rows.length).map fun i =>
    match rows[i]? with
    | some r => rollingMean7 (groupSeries rows r.product) (rankWithin rows i r.product)
    | none => 0

/-- The canonical weekday order `dias_ordem` used by `analise_temporal`. -/
def diasOrdem : List String :=
  ["Monday", "Tuesday", "Wednesday", "Thursday", "Friday", "Saturday", "Sunday"]

/-- Embeds `date.dt.day_name()`: with day 0 a Monday, the name at index mod 7. -/
def dayName (d : ℕ) : String := diasOrdem.getD (d % 7) ""

/-- Embeds
`pd.cut(price, bins=[0, 50, 100, 150, 200], labels=['Baixo', 'Médio', 'Alto', 'Premium'])`:
right-closed bins `(0,50], (50,100], (100,150], (150,200]`; a price outside
every bin (price ≤ 0 or price > 200) gets the missing label `NaN`, here
`none`. -/
def priceCategory (p : ℚ) : Option String :=
  if 0 < p ∧ p ≤ 50 then some "Baixo"
  else if 50 < p ∧ p ≤ 100 then some "Médio"
  else if 100 < p ∧ p ≤ 150 then some "Alto"
  else if 150 < p ∧ p ≤ 200 then some "Premium"
  else none

/-- Embeds
`pd.cut(revenue, bins=[0, 100, 500, 1000, inf], labels=['Pequeno', 'Médio', 'Grande', 'Muito Grande'])`:
bins `(0,100], (100,500], (500,1000], (1000,∞)`; only revenue ≤ 0 falls outside
every bin and gets `none`. -/
def orderValueCategory (v : ℚ) : Option String :=
  if 0 < v ∧ v ≤ 100 then some "Pequeno"
  else if 100 < v ∧ v ≤ 500 then some "Médio"
  else if 500 < v ∧ v ≤ 1000 then some "Grande"
  else if 1000 < v then some "Muito Grande"
  else none

/-- One row of `df_processado`, the enriched table built by `preparar_dados`.
`month` (`dt.month_name()`) is also derived there but is read by no analysis
under study, so it is not carried. -/
structure Row where
  date : ℕ
  product : String
  region : String
  price : ℚ
  quantity : ℚ
  revenue : ℚ
  revenue_ma7 : ℚ
  day_of_week : String
  week_number : ℕ
  price_category : Option String
  order_value_category : Option String
  margin_percent : ℚ
  cost : ℚ
  profit : ℚ
deriving DecidableEq, Repr, Inhabited

/-- Enrichment of the row at position `i` of the cleaned table `rows`.
`margins i` is the i-th draw of `np.random.uniform(20, 60, len(df))` under
`np.random.seed(42)`: a fixed sequence assigned by row position, which we
abstract as a function parameter (its concrete values decide nothing below). -/
def enrichRow (margins : ℕ → ℚ) (rows : List RawRow) (i : ℕ) (r : RawRow) : Row :=
  let rev := r.price * r.quantity
  let m := margins i
  let c := r.price * (1 - m / 100)
  { date := r.date
    product := r.product
    region := r.region
    price := r.price
    quantity := r.quantity
    revenue := rev
    revenue_ma7 := (ma7Column rows).getD i 0
    day_of_week := dayName r.date
    week_number := r.date / 7
    price_category := priceCategory r.price
    order_value_category := orderValueCategory rev
    margin_percent := m
    cost := c
    profit := rev - c * r.quantity }

/-- Embeds `AnaliseVendasAvancada.preparar_dados`: drop duplicate rows (nulls
were already excluded by typing the raw rows totally), then derive every
computed column row by row. -/
def preparar_dados (margins : ℕ → ℚ) (raw : List RawRow) : List Row :=
  let rows := dropDuplicates raw
  rows.enum.map fun p => enrichRow margins rows p.1 p.2

/-- Distinct values of a list in first-seen order, with `seen` already
emitted.  Auxiliary for grouping and pivoting: `groupby` and `pivot_table`
present key values sorted, but every claim below is insensitive to the order
in which the keys are listed, so the embedding keeps first-seen order. -/
def firstSeenAux {α : Type} [DecidableEq α] (seen : List α) : List α → List α
  | [] => []
  | a :: l => if a ∈ seen then firstSeenAux seen l else a :: firstSeenAux (a :: seen) l

/-- Distinct values of a list in first-seen order. -/
def firstSeen {α : Type} [DecidableEq α] (l : List α) : List α := firstSeenAux [] l

/-- The key values a pivot dimension takes: the distinct non-missing values of
the key over the table.  Rows whose key is missing (`NaN`, e.g. a
`price_category` outside every bin) contribute no key: `pivot_table` drops
them. -/
def pivotKeys {α : Type} (rows : List α) (key : α → Option String) : List String :=
  firstSeen (rows.filterMap key)

/-- One cell of `pd.pivot_table(..., aggfunc='sum', fill_value=0)`: the sum of
the measure over the rows carrying exactly this pair of key values (0 when no
row does, by `fill_value=0` — summing an empty list). -/
def pivotCell {α : Type} (rows : List α) (rowKey colKey : α → Option String)
    (measure : α → ℚ) (rk ck : String) : ℚ :=
  ((rows.filter (fun r => rowKey r = some rk ∧ colKey r = some ck)).map measure).sum

/-- Embeds `pd.pivot_table(df, values=measure, index=rowKey, columns=colKey,
aggfunc='sum', fill_value=0)` as used twice in `analise_cruzada`: a dense
2-D table with one row per observed row-key value and one cell per observed
column-key value. -/
def pivot_table {α : Type} (rows : List α) (rowKey colKey : α → Option String)
    (measure : α → ℚ) : List (String × List (String × ℚ)) :=
  (pivotKeys rows rowKey).map fun rk =>
    (rk, (pivotKeys rows colKey).map fun ck => (ck, pivotCell rows rowKey colKey measure rk ck))

/-- Sum of every cell of a pivot table. -/
def pivotCellTotal {α : Type} (rows : List α) (rowKey colKey : α → Option String)
    (measure : α → ℚ) : ℚ :=
  ((pivot_table rows rowKey colKey measure).map fun p => (p.2.map Prod.snd).sum).sum

/-- The `Produto x Região` revenue pivot of `analise_cruzada`. -/
def pivot_produto_regiao (es : List Row) : List (String × List (String × ℚ)) :=
  pivot_table es (fun r => some r.product) (fun r => some r.region) Row.revenue

/-- The `Região x Categoria de Preço` revenue pivot of `analise_cruzada`. -/
def pivot_regiao_categoria (es : List Row) : List (String × List (String × ℚ)) :=
  pivot_table es (fun r => some r.region) (fun r => r.price_category) Row.revenue

/-- Sample variance of a list (pandas default `ddof = 1`), `none` (`NaN`) when
fewer than two observations exist.  The `preco_std` column of
`analise_por_produto` is the square root of this value; the claims under study
ask only whether the statistic is missing or zero, which the square root
preserves, so the embedding carries the variance. -/
def sampleVar (xs : List ℚ) : Option ℚ :=
  if xs.length ≤ 1 then none
  else some ((xs.map fun x => (x - mean xs) ^ 2).sum / ((xs.length : ℚ) - 1))

/-- One row of the `analise_produto` aggregate table: the renamed columns of
`groupby('product').agg(...)`.  `preco_var` carries the sample variance
underlying `preco_std` (see `sampleVar`).  The final `.round(2)` only rounds
the displayed statistics and preserves missingness and row structure, which
is all the claims under study concern, so it is not modelled. -/
structure ProdutoAgg where
  product : String
  qtd_total : ℚ
  qtd_media : ℚ
  num_vendas : ℕ
  faturamento_total : ℚ
  faturamento_medio : ℚ
  lucro_total : ℚ
  lucro_medio : ℚ
  preco_medio : ℚ
  preco_var : Option ℚ
  margem_media : ℚ
deriving DecidableEq, Repr, Inhabited

/-- The aggregate row of one product group. -/
def produtoAggOf (es : List Row) (p : String) : ProdutoAgg :=
  let g := es.filter fun r => r.product = p
  { product := p
    qtd_total := (g.map Row.quantity).sum
    qtd_media := mean (g.map Row.quantity)
    num_vendas := g.length
    faturamento_total := (g.map Row.revenue).sum
    faturamento_medio := mean (g.map Row.revenue)
    lucro_total := (g.map Row.profit).sum
    lucro_medio := mean (g.map Row.profit)
    preco_medio := mean (g.map Row.price)
    preco_var := sampleVar (g.map Row.price)
    margem_media := mean (g.map Row.margin_percent) }

/-- Embeds `AnaliseVendasAvancada.analise_por_produto`: group the enriched
table by product, aggregate each group, sort descending by total revenue
(`sort_values('faturamento_total', ascending=False)`, a stable sort), then
read `index[0]` for the insight lines.  On an empty table that lookup fails
(`IndexError` on an empty index) — the failure the spec names
`EmptyGroupError`; on a nonempty table the method returns the aggregate
table. -/
def produtoAggs (es : List Row) : List ProdutoAgg :=
  (firstSeen (es.map Row.product)).map (produtoAggOf es)

/-- The aggregate table after
`sort_values('faturamento_total', ascending=False)` (a stable sort). -/
def produtoAggsSorted (es : List Row) : List ProdutoAgg :=
  (produtoAggs es).mergeSort fun a b => decide (b.faturamento_total ≤ a.faturamento_total)

def analise_por_produto (es : List Row) : Except String (List ProdutoAgg) :=
  match produtoAggsSorted es with
  | [] => Except.error "EmptyGroupError"
  | a :: rest => Except.ok (a :: rest)

/-- Smallest `date` of the enriched table (`df['date'].min()`); 0 as the
irrelevant default for the empty table, on which the code path fails
earlier. -/
def minDate (es : List Row) : ℕ := ((es.map Row.date).min?).getD 0

/-- Largest `date` of the enriched table (`df['date'].max()`). -/
def maxDate (es : List Row) : ℕ := ((es.map Row.date).max?).getD 0

/-- Embeds the `vendas_diarias` series of `analise_temporal`: group by date,
sum revenue/quantity/profit, resample to calendar days and reindex over
`pd.date_range(min(date), max(date))` with `fill_value=0` — one entry per
calendar day of the inclusive range, days without transactions summing to
zero.  Each entry is `(day, revenue, quantity, profit)`. -/
def vendas_diarias (es : List Row) : List (ℕ × ℚ × ℚ × ℚ) :=
  (List.range (maxDate es - minDate es + 1)).map fun k =>
    let d := minDate es + k
    let g := es.filter fun r => r.date = d
    (d, (g.map Row.revenue).sum, (g.map Row.quantity).sum, (g.map Row.profit).sum)

/-- The daily revenue series that `pct_change()` is applied to. -/
def dailyRevenue (es : List Row) : List ℚ := (vendas_diarias es).map fun t => t.2.1

/-- Embeds the `vendas_dia_semana` table of `analise_temporal`: group by
`day_of_week`, aggregate revenue (sum, mean, count), then
`reindex(dias_ordem)` — the canonical Monday-to-Sunday order; a weekday with
no rows gets a missing (`NaN`-filled, here `none`) statistics entry. -/
def vendas_dia_semana (es : List Row) : List (String × Option (ℚ × ℚ × ℕ)) :=
  diasOrdem.map fun d =>
    let g := es.filter fun r => r.day_of_week = d
    (d, if g.isEmpty then none else some ((g.map Row.revenue).sum, mean (g.map Row.revenue), g.length))

/-- A value of the float computations around `pct_change().mean()`: a finite
rational, one of the two infinities (produced by dividing a nonzero value by
zero), or `NaN` (0/0, or the first element of `pct_change`). -/
inductive FVal where
  | nan : FVal
  | pinf : FVal
  | ninf : FVal
  | fin : ℚ → FVal
deriving DecidableEq, Repr, Inhabited

/-- IEEE-754-style addition on `FVal`: `NaN` propagates, opposite infinities
give `NaN`, an infinity absorbs finite values. -/
def FVal.add : FVal → FVal → FVal
  | nan, _ => nan
  | _, nan => nan
  | pinf, pinf => pinf
  | pinf, ninf => nan
  | ninf, pinf => nan
  | ninf, ninf => ninf
  | pinf, fin _ => pinf
  | fin _, pinf => pinf
  | ninf, fin _ => ninf
  | fin _, ninf => ninf
  | fin a, fin b => fin (a + b)

/-- Division of an `FVal` by a positive natural count (the length of the
series the mean is taken over). -/
def FVal.divNat : FVal → ℕ → FVal
  | nan, _ => nan
  | pinf, _ => pinf
  | ninf, _ => ninf
  | fin a, n => fin (a / n)

/-- Multiplication of an `FVal` by a positive rational constant (the `* 100`
turning a ratio into a percentage). -/
def FVal.mulC : FVal → ℚ → FVal
  | nan, _ => nan
  | pinf, _ => pinf
  | ninf, _ => ninf
  | fin a, c => fin (a * c)

/-- One step of `pct_change()` in float semantics: `(cur - prev) / prev`;
when `prev = 0` this is `0/0 = NaN` if `cur = 0` and a signed infinity
otherwise. -/
def pctChangeStep (prev cur : ℚ) : FVal :=
  if prev = 0 then
    if cur = 0 then FVal.nan else if 0 < cur then FVal.pinf else FVal.ninf
  else FVal.fin ((cur - prev) / prev)

/-- Embeds `Series.pct_change()`: `NaN` at the first position, then the
percentage change of each successive pair. -/
def pctChange : List ℚ → List FVal
  | [] => []
  | x :: xs => FVal.nan :: List.zipWith pctChangeStep (x :: xs) xs

/-- Embeds `Series.mean()` with its default `skipna=True`: `NaN` entries are
dropped, the rest are summed (infinities propagate) and divided by their
count; the mean of nothing is `NaN`. -/
def meanSkipna (vs : List FVal) : FVal :=
  if (vs.filter fun v => v ≠ FVal.nan).isEmpty then FVal.nan
  else ((vs.filter fun v => v ≠ FVal.nan).foldl FVal.add (FVal.fin 0)).divNat
    (vs.filter fun v => v ≠ FVal.nan).length

/-- Embeds `crescimento_diario = vendas_diarias['revenue'].pct_change().mean() * 100`. -/
def crescimento_diario (es : List Row) : FVal :=
  (meanSkipna (pctChange (dailyRevenue es))).mulC 100

/-- The weekly revenue series of `identificar_padroes`:
`groupby('week_number')['revenue'].sum()`, whose index (the observed week
numbers) `groupby` sorts ascending. -/
def vendas_semana (es : List Row) : List ℚ :=
  ((firstSeen (es.map Row.week_number)).mergeSort fun a b => decide (a ≤ b)).map
    fun w => ((es.filter fun r => r.week_number = w).map Row.revenue).sum

/-- Embeds `crescimento_semanal = vendas_semana.pct_change().mean() * 100`. -/
def crescimento_semanal (es : List Row) : FVal :=
  (meanSkipna (pctChange (vendas_semana es))).mulC 100

/-- The successive pairs of a series, for stating hypotheses about
`pct_change`. -/
def succPairs (xs : List ℚ) : List (ℚ × ℚ) := List.zipWith Prod.mk xs (xs.drop 1)

/-- Modelled from the spec: the successive percentage changes the exclusion
policy keeps — every pair whose prior value is zero is dropped. -/
def specChanges (xs : List ℚ) : List ℚ :=
  (succPairs xs).filterMap fun pc =>
    if pc.1 = 0 then none else some ((pc.2 - pc.1) / pc.1)

/-- Modelled from the spec: the growth statistic under the exclusion policy
the spec describes — the mean of the successive percentage changes where every
pair whose prior value is zero is excluded (no value at all when every pair is
excluded), expressed in percent. -/
def specGrowthMean (xs : List ℚ) : Option ℚ :=
  if (specChanges xs).isEmpty then none else some (mean (specChanges xs) * 100)

/-- The spec's exclusion-policy statistic read back as a float value, for
comparison with the code's statistic. -/
def specGrowthFVal (xs : List ℚ) : FVal :=
  match specGrowthMean xs with
  | none => FVal.nan
  | some q => FVal.fin q

/-- Embeds `Series.quantile(q)` with the default linear interpolation: with
the values sorted ascending and `h = q * (n - 1)`, the result interpolates
between the values at positions `⌊h⌋` and `⌊h⌋ + 1`. -/
def quantileLinear (xs : List ℚ) (q : ℚ) : ℚ :=
  let s := xs.mergeSort fun a b => decide (a ≤ b)
  let h : ℚ := q * ((s.length : ℚ) - 1)
  let lo : ℕ := (⌊h⌋).toNat
  let frac : ℚ := h - (lo : ℚ)
  s.getD lo 0 + frac * (s.getD (lo + 1) (s.getD lo 0) - s.getD lo 0)

/-- Embeds the outlier filter of `identificar_padroes`: `Q1`/`Q3` are the
0.25/0.75 revenue quantiles of the full enriched table, and a row is kept iff
its revenue lies strictly below `Q1 - 1.5*IQR` or strictly above
`Q3 + 1.5*IQR`. -/
def identificar_outliers (es : List Row) : List Row :=
  let q1 := quantileLinear (es.map Row.revenue) (1 / 4)
  let q3 := quantileLinear (es.map Row.revenue) (3 / 4)
  let iqr := q3 - q1
  es.filter fun r => r.revenue < q1 - 3 / 2 * iqr ∨ q3 + 3 / 2 * iqr < r.revenue

/-- CLAIM C1: in the enriched table produced by `preparar_dados`, every row's
`revenue` field equals `price × quantity` exactly. -/
theorem revenue_eq_price_mul_quantity (margins : ℕ → ℚ) (raw : List RawRow)
    (r : Row) (hr : r ∈ preparar_dados margins raw) :
    r.revenue = r.price * r.quantity := by
  unfold preparar_dados at hr
  simp only [List.mem_map] at hr
  obtain ⟨⟨i, x⟩, _, rfl⟩ := hr
  rfl

/-- Witness for C1: the claim evaluated on a concrete one-row table. -/
theorem revenue_eq_price_mul_quantity_witness :
    ((preparar_dados (fun _ => 40) [⟨0, "A", "N", 10, 2⟩]).getD 0 default).revenue
      = ((preparar_dados (fun _ => 40) [⟨0, "A", "N", 10, 2⟩]).getD 0 default).price
        * ((preparar_dados (fun _ => 40) [⟨0, "A", "N", 10, 2⟩]).getD 0 default).quantity :=
  revenue_eq_price_mul_quantity (fun _ => 40) [⟨0, "A", "N", 10, 2⟩] _ (by
    norm_num [preparar_dados, dropDuplicates, enrichRow, ma7Column, rollingMean7, mean,
      lastN, groupSeries, rankWithin, rawRevenue, dayName, priceCategory,
      orderValueCategory, diasOrdem, List.enum, List.enumFrom])

/-- Helper: when element `i` of `l` satisfies `p`, taking one more element of
the filtered list than the number of earlier matches yields exactly the
filtered prefix up to and including position `i`. -/
theorem take_rank_filter {α : Type} (p : α → Bool) :
    ∀ (l : List α) (i : ℕ) (hi : i < l.length), p (l.get ⟨i, hi⟩) = true →
      (l.filter p).take (((l.take i).filter p).length + 1) = (l.take (i + 1)).filter p := by
  intro l
  induction l with
  | nil => intro i hi; simp at hi
  | cons x xs ih =>
    intro i hi hp
    cases i with
    | zero =>
      simp only [List.get] at hp
      simp [List.filter_cons, hp]
    | succ j =>
      simp only [List.length_cons, Nat.succ_lt_succ_iff] at hi
      simp only [List.get] at hp
      by_cases hx : p x
      · simp only [List.take_succ_cons, List.filter_cons, hx, if_pos, List.length_cons]
        simp [ih j hi hp]
      · simp only [List.take_succ_cons, List.filter_cons, hx]
        simp only [if_neg, Bool.false_eq_true, not_false_iff]
        exact ih j hi hp

/-- Helper: the enriched row at position `i` is the enrichment of the cleaned
raw row at position `i`. -/
theorem preparar_dados_getD (margins : ℕ → ℚ) (raw : List RawRow) (i : ℕ)
    (hi : i < (dropDuplicates raw).length) :
    (preparar_dados margins raw).getD i default
      = enrichRow margins (dropDuplicates raw) i ((dropDuplicates raw).getD i default) := by
  unfold preparar_dados
  have h1 : i < (((dropDuplicates raw).enum.map fun p =>
      enrichRow margins (dropDuplicates raw) p.1 p.2)).length := by
    simpa using hi
  rw [List.getD_eq_getElem?_getD, List.getElem?_eq_getElem h1]
  simp [List.getElem_enum, List.getElem?_eq_getElem hi]

/-- Helper: the `revenue_ma7` value at position `i` is the rolling mean of the
product group's series at the row's within-group rank. -/
theorem ma7Column_getD (rows : List RawRow) (i : ℕ) (hi : i < rows.length) :
    (ma7Column rows).getD i 0
      = rollingMean7 (groupSeries rows ((rows.getD i default).product))
          (rankWithin rows i ((rows.getD i default).product)) := by
  unfold ma7Column
  have h1 : i < ((List.range rows.length).map fun i =>
      match rows[i]? with
      | some r => rollingMean7 (groupSeries rows r.product) (rankWithin rows i r.product)
      | none => 0).length := by
    simpa using hi
  rw [List.getD_eq_getElem?_getD, List.getElem?_eq_getElem h1]
  simp [List.getElem_range, List.getElem?_eq_getElem hi]

/-- CLAIM C2 (amended): the `revenue_ma7` of the row at position `i` of the
enriched table is the mean of the trailing at-most-7 revenues of the rows with
the same product among positions `≤ i` of the cleaned table, in input row
order.  The derivation never consults the dates, so it is invariant only under
reorderings that preserve the relative input order of same-product rows, not
under arbitrary permutations. -/
theorem revenue_ma7_trailing_mean_in_input_order (margins : ℕ → ℚ) (raw : List RawRow)
    (i : ℕ) (hi : i < (dropDuplicates raw).length) :
    ((preparar_dados margins raw).getD i default).revenue_ma7
      = mean (lastN 7 ((((dropDuplicates raw).take (i + 1)).filter
          (fun r => r.product = ((dropDuplicates raw).getD i default).product)).map
            rawRevenue)) := by
  rw [preparar_dados_getD margins raw i hi]
  show (ma7Column (dropDuplicates raw)).getD i 0 = _
  rw [ma7Column_getD _ i hi]
  unfold rollingMean7 groupSeries rankWithin
  rw [← List.map_take, take_rank_filter _ _ i hi]
  simp [List.getD_eq_getElem?_getD, List.getElem?_eq_getElem hi]

/-- Witness for the amended C2 at a concrete two-row table. -/
theorem revenue_ma7_trailing_mean_witness :
    ((preparar_dados (fun _ => 40)
        [⟨1, "A", "N", 1, 1⟩, ⟨0, "A", "N", 3, 1⟩]).getD 1 default).revenue_ma7
      = mean (lastN 7 ((((dropDuplicates [⟨1, "A", "N", 1, 1⟩, ⟨0, "A", "N", 3, 1⟩]).take 2).filter
          (fun r => r.product =
            ((dropDuplicates [⟨1, "A", "N", 1, 1⟩, ⟨0, "A", "N", 3, 1⟩]).getD 1 default).product)).map
            rawRevenue)) :=
  revenue_ma7_trailing_mean_in_input_order (fun _ => 40) _ 1 (by
    norm_num [dropDuplicates])

/-- CLAIM C2 (counterexample): permuting the input table changes the
`revenue_ma7` of a row matched by transaction identity — the trailing window is
taken in input order, not in date order, so the claim as stated is false. -/
theorem revenue_ma7_reorder_counterexample :
    ¬ (∀ (margins : ℕ → ℚ) (raw raw' : List RawRow), raw.Perm raw' →
        ∀ r ∈ preparar_dados margins raw, ∀ r' ∈ preparar_dados margins raw',
          r.date = r'.date → r.product = r'.product → r.region = r'.region →
          r.price = r'.price → r.quantity = r'.quantity →
          r.revenue_ma7 = r'.revenue_ma7) := by
  intro h
  have hperm : ([⟨1, "A", "N", 1, 1⟩, ⟨0, "A", "N", 3, 1⟩] : List RawRow).Perm
      [⟨0, "A", "N", 3, 1⟩, ⟨1, "A", "N", 1, 1⟩] := List.Perm.swap _ _ _
  have hkey := h (fun _ => 40) _ _ hperm
    ⟨1, "A", "N", 1, 1, 1, 1, "Tuesday", 0, some "Baixo", some "Pequeno", 40, 3/5, 2/5⟩
    (by norm_num [preparar_dados, dropDuplicates, enrichRow, ma7Column, rollingMean7, mean,
      lastN, groupSeries, rankWithin, rawRevenue, dayName, priceCategory,
      orderValueCategory, diasOrdem, List.enum, List.enumFrom])
    ⟨1, "A", "N", 1, 1, 1, 2, "Tuesday", 0, some "Baixo", some "Pequeno", 40, 3/5, 2/5⟩
    (by norm_num [preparar_dados, dropDuplicates, enrichRow, ma7Column, rollingMean7, mean,
      lastN, groupSeries, rankWithin, rawRevenue, dayName, priceCategory,
      orderValueCategory, diasOrdem, List.enum, List.enumFrom])
    rfl rfl rfl rfl rfl
  exact absurd hkey (by norm_num)

/-- CLAIM C4: for a non-empty enriched table, the daily series has exactly
`max(date) − min(date) + 1` entries, the k-th entry covering calendar day
`min(date) + k`, and a day with no transactions yields the all-zero entry
(revenue, quantity and profit all 0). -/
theorem daily_series_gap_filled (es : List Row) (hne : es ≠ []) :
    (vendas_diarias es).length = maxDate es - minDate es + 1
  ∧ ∀ k, k < (vendas_diarias es).length →
      ((vendas_diarias es).getD k (0, 0, 0, 0)).1 = minDate es + k
      ∧ ((es.filter fun r => r.date = minDate es + k) = [] →
          (vendas_diarias es).getD k (0, 0, 0, 0) = (minDate es + k, 0, 0, 0)) := by
  constructor
  · simp [vendas_diarias]
  · intro k hk
    have hk' : k < (List.range (maxDate es - minDate es + 1)).length := by
      simpa [vendas_diarias] using hk
    have hk'' : k < ((List.range (maxDate es - minDate es + 1)).map fun k =>
        ((minDate es + k : ℕ), ((es.filter fun r => r.date = minDate es + k).map Row.revenue).sum,
          ((es.filter fun r => r.date = minDate es + k).map Row.quantity).sum,
          ((es.filter fun r => r.date = minDate es + k).map Row.profit).sum)).length := by
      simpa using hk'
    constructor
    · unfold vendas_diarias
      rw [List.getD_eq_getElem?_getD, List.getElem?_eq_getElem hk'']
      simp
    · intro hempty
      unfold vendas_diarias
      rw [List.getD_eq_getElem?_getD, List.getElem?_eq_getElem hk'']
      simp [hempty]

/-- Witness for C4 at a table with transactions on days 0 and 2 only. -/
theorem daily_series_gap_filled_witness :
    (vendas_diarias (preparar_dados (fun _ => 40) [⟨0, "A", "N", 10, 1⟩, ⟨2, "A", "N", 10, 1⟩])).length
      = maxDate (preparar_dados (fun _ => 40) [⟨0, "A", "N", 10, 1⟩, ⟨2, "A", "N", 10, 1⟩])
        - minDate (preparar_dados (fun _ => 40) [⟨0, "A", "N", 10, 1⟩, ⟨2, "A", "N", 10, 1⟩]) + 1
  ∧ ∀ k, k < (vendas_diarias (preparar_dados (fun _ => 40) [⟨0, "A", "N", 10, 1⟩, ⟨2, "A", "N", 10, 1⟩])).length →
      ((vendas_diarias (preparar_dados (fun _ => 40) [⟨0, "A", "N", 10, 1⟩, ⟨2, "A", "N", 10, 1⟩])).getD k (0, 0, 0, 0)).1
        = minDate (preparar_dados (fun _ => 40) [⟨0, "A", "N", 10, 1⟩, ⟨2, "A", "N", 10, 1⟩]) + k
      ∧ (((preparar_dados (fun _ => 40) [⟨0, "A", "N", 10, 1⟩, ⟨2, "A", "N", 10, 1⟩]).filter fun r =>
            r.date = minDate (preparar_dados (fun _ => 40) [⟨0, "A", "N", 10, 1⟩, ⟨2, "A", "N", 10, 1⟩]) + k) = [] →
          (vendas_diarias (preparar_dados (fun _ => 40) [⟨0, "A", "N", 10, 1⟩, ⟨2, "A", "N", 10, 1⟩])).getD k (0, 0, 0, 0)
            = (minDate (preparar_dados (fun _ => 40) [⟨0, "A", "N", 10, 1⟩, ⟨2, "A", "N", 10, 1⟩]) + k, 0, 0, 0)) :=
  daily_series_gap_filled _ (by
    intro h
    simpa [preparar_dados, dropDuplicates] using congrArg List.length h)

/-- CLAIM C8: for a non-empty enriched table the weekday aggregate has exactly
7 entries, keyed Monday, Tuesday, Wednesday, Thursday, Friday, Saturday,
Sunday in that order, regardless of which weekdays occur in the data. -/
theorem weekday_aggregate_seven_rows (es : List Row) (hne : es ≠ []) :
    (vendas_dia_semana es).length = 7
  ∧ (vendas_dia_semana es).map Prod.fst
      = ["Monday", "Tuesday", "Wednesday", "Thursday", "Friday", "Saturday", "Sunday"] := by
  constructor
  · simp [vendas_dia_semana, diasOrdem]
  · simp [vendas_dia_semana, diasOrdem]

/-- Witness for C8 at a concrete one-row table (a single Monday). -/
theorem weekday_aggregate_seven_rows_witness :
    (vendas_dia_semana (preparar_dados (fun _ => 40) [⟨0, "A", "N", 10, 1⟩])).length = 7
  ∧ (vendas_dia_semana (preparar_dados (fun _ => 40) [⟨0, "A", "N", 10, 1⟩])).map Prod.fst
      = ["Monday", "Tuesday", "Wednesday", "Thursday", "Friday", "Saturday", "Sunday"] :=
  weekday_aggregate_seven_rows _ (by
    intro h
    simpa [preparar_dados, dropDuplicates] using congrArg List.length h)

/-- Helper: the linear-interpolation quantile of a nonempty constant list is
that constant, for any probability in `[0, 1]`. -/
theorem quantileLinear_const (xs : List ℚ) (v : ℚ) (hne : xs ≠ [])
    (hall : ∀ x ∈ xs, x = v) (q : ℚ) (hq0 : 0 ≤ q) (hq1 : q ≤ 1) :
    quantileLinear xs q = v := by
  unfold quantileLinear
  have hperm : (xs.mergeSort fun a b => decide (a ≤ b)).Perm xs := List.mergeSort_perm xs _
  set s := xs.mergeSort fun a b => decide (a ≤ b) with hs
  have halls : ∀ x ∈ s, x = v := fun x hx => hall x (hperm.mem_iff.mp hx)
  have hn : 1 ≤ s.length := by
    rw [hperm.length_eq]
    exact List.length_pos.mpr hne
  have hcast : (1 : ℚ) ≤ (s.length : ℚ) := by exact_mod_cast hn
  have hh0 : 0 ≤ q * ((s.length : ℚ) - 1) := mul_nonneg hq0 (by linarith)
  have hh1 : q * ((s.length : ℚ) - 1) ≤ (s.length : ℚ) - 1 :=
    mul_le_of_le_one_left (by linarith) hq1
  have hfl : ⌊q * ((s.length : ℚ) - 1)⌋ ≤ (s.length : ℤ) - 1 := by
    have h1 : ⌊q * ((s.length : ℚ) - 1)⌋ ≤ ⌊(s.length : ℚ) - 1⌋ := Int.floor_le_floor hh1
    have h2 : ⌊(s.length : ℚ) - 1⌋ = (s.length : ℤ) - 1 := by
      rw [show ((s.length : ℚ) - 1) = (((s.length : ℤ) - 1 : ℤ) : ℚ) by push_cast; ring,
        Int.floor_intCast]
    exact le_of_le_of_eq h1 h2
  have hlo : (⌊q * ((s.length : ℚ) - 1)⌋).toNat < s.length := by omega
  have hget : ∀ (j : ℕ) (d : ℚ), j < s.length → s.getD j d = v := by
    intro j d hj
    rw [List.getD_eq_getElem?_getD, List.getElem?_eq_getElem hj]
    exact halls _ (List.getElem_mem hj)
  show s.getD (⌊q * ((s.length : ℚ) - 1)⌋).toNat 0
      + (q * ((s.length : ℚ) - 1) - ((⌊q * ((s.length : ℚ) - 1)⌋).toNat : ℚ))
        * (s.getD ((⌊q * ((s.length : ℚ) - 1)⌋).toNat + 1)
            (s.getD (⌊q * ((s.length : ℚ) - 1)⌋).toNat 0)
          - s.getD (⌊q * ((s.length : ℚ) - 1)⌋).toNat 0) = v
  rw [hget _ _ hlo]
  by_cases hlo1 : (⌊q * ((s.length : ℚ) - 1)⌋).toNat + 1 < s.length
  · rw [hget _ _ hlo1]
    ring
  · rw [List.getD_eq_default _ _ (by omega)]
    ring

/-- CLAIM C9: a row is in the outlier set iff it belongs to the enriched table
and its revenue lies strictly outside the Tukey fences built from the 0.25 and
0.75 linear-interpolation revenue quantiles of the full table; consequently a
table whose revenues are all equal has an empty outlier set. -/
theorem outlier_tukey_fence (es : List Row) (r : Row) :
    (r ∈ identificar_outliers es ↔
      r ∈ es ∧ (r.revenue < quantileLinear (es.map Row.revenue) (1 / 4)
          - 3 / 2 * (quantileLinear (es.map Row.revenue) (3 / 4)
            - quantileLinear (es.map Row.revenue) (1 / 4))
        ∨ quantileLinear (es.map Row.revenue) (3 / 4)
          + 3 / 2 * (quantileLinear (es.map Row.revenue) (3 / 4)
            - quantileLinear (es.map Row.revenue) (1 / 4)) < r.revenue))
  ∧ ∀ v : ℚ, (∀ x ∈ es, x.revenue = v) → identificar_outliers es = [] := by
  constructor
  · unfold identificar_outliers
    simp [List.mem_filter, and_comm]
  · intro v hv
    by_cases hes : es = []
    · subst hes
      rfl
    · have hmapne : es.map Row.revenue ≠ [] := by
        simpa using hes
      have hallv : ∀ x ∈ es.map Row.revenue, x = v := by
        intro x hx
        obtain ⟨rr, hrr, rfl⟩ := List.mem_map.mp hx
        exact hv rr hrr
      have hq1 := quantileLinear_const (es.map Row.revenue) v hmapne hallv (1 / 4)
        (by norm_num) (by norm_num)
      have hq3 := quantileLinear_const (es.map Row.revenue) v hmapne hallv (3 / 4)
        (by norm_num) (by norm_num)
      unfold identificar_outliers
      rw [List.filter_eq_nil_iff]
      intro rr hrr
      have hrv := hv rr hrr
      simp only [hq1, hq3, hrv, decide_eq_true_eq]
      push_neg
      constructor <;> linarith

/-- Witness for C9: a table whose two rows have equal revenue yields no
outliers. -/
theorem outlier_tukey_fence_witness :
    identificar_outliers (preparar_dados (fun _ => 40)
      [⟨0, "A", "N", 10, 1⟩, ⟨0, "B", "N", 10, 1⟩]) = [] :=
  (outlier_tukey_fence _ default).2 10 (by
    norm_num [preparar_dados, dropDuplicates, enrichRow, ma7Column, rollingMean7, mean,
      lastN, groupSeries, rankWithin, rawRevenue, dayName, priceCategory,
      orderValueCategory, diasOrdem, List.enum, List.enumFrom])

/-- Helper: membership in `firstSeenAux`. -/
theorem mem_firstSeenAux {α : Type} [DecidableEq α] (l : List α) :
    ∀ (seen : List α) (x : α), x ∈ firstSeenAux seen l ↔ x ∈ l ∧ x ∉ seen := by
  induction l with
  | nil => intro seen x; simp [firstSeenAux]
  | cons a l ih =>
    intro seen x
    by_cases ha : a ∈ seen
    · rw [firstSeenAux, if_pos ha, ih]
      constructor
      · rintro ⟨h1, h2⟩
        exact ⟨List.mem_cons_of_mem _ h1, h2⟩
      · rintro ⟨h1, h2⟩
        rcases List.mem_cons.mp h1 with rfl | h1
        · exact absurd ha h2
        · exact ⟨h1, h2⟩
    · rw [firstSeenAux, if_neg ha]
      by_cases hx : x = a
      · subst hx
        simp [ha]
      · simp only [List.mem_cons, hx, false_or]
        rw [ih]
        simp [List.mem_cons, hx]

/-- Helper: membership in `firstSeen` is membership in the underlying list. -/
theorem mem_firstSeen {α : Type} [DecidableEq α] (l : List α) (x : α) :
    x ∈ firstSeen l ↔ x ∈ l := by
  simp [firstSeen, mem_firstSeenAux]

/-- Helper: `firstSeenAux` never repeats a value. -/
theorem nodup_firstSeenAux {α : Type} [DecidableEq α] (l : List α) :
    ∀ seen : List α, (firstSeenAux seen l).Nodup := by
  induction l with
  | nil => intro seen; simp [firstSeenAux]
  | cons a l ih =>
    intro seen
    by_cases ha : a ∈ seen
    · rw [firstSeenAux, if_pos ha]
      exact ih seen
    · rw [firstSeenAux, if_neg ha]
      refine List.nodup_cons.mpr ⟨?_, ih _⟩
      intro hmem
      exact absurd ((mem_firstSeenAux l (a :: seen) a).mp hmem).2 (by simp)

/-- Helper: `firstSeen` produces distinct values. -/
theorem nodup_firstSeen {α : Type} [DecidableEq α] (l : List α) :
    (firstSeen l).Nodup := nodup_firstSeenAux l []

/-- Helper: `firstSeen` of a list is empty exactly when the list is. -/
theorem firstSeen_eq_nil {α : Type} [DecidableEq α] (l : List α) :
    firstSeen l = [] ↔ l = [] := by
  cases l with
  | nil => simp [firstSeen, firstSeenAux]
  | cons a l => simp [firstSeen, firstSeenAux]

/-- Helper: the sorted product aggregate table is a permutation of the
unsorted one. -/
theorem produtoAggsSorted_perm (es : List Row) :
    (produtoAggsSorted es).Perm (produtoAggs es) :=
  List.mergeSort_perm _ _

/-- Helper: the sorted product aggregate table is empty exactly when the
enriched table is. -/
theorem produtoAggsSorted_eq_nil (es : List Row) :
    produtoAggsSorted es = [] ↔ es = [] := by
  constructor
  · intro h0
    have h := (produtoAggsSorted_perm es).length_eq
    rw [h0] at h
    unfold produtoAggs at h
    simp only [List.length_nil, List.length_map] at h
    have : firstSeen (es.map Row.product) = [] := List.length_eq_zero.mp h.symm
    have : es.map Row.product = [] := (firstSeen_eq_nil _).mp this
    simpa using this
  · intro h0
    subst h0
    simp [produtoAggsSorted, produtoAggs, firstSeen, firstSeenAux]

/-- CLAIM C7: `analise_por_produto` fails (the failure the spec names
`EmptyGroupError`) exactly when the enriched table is empty; on a nonempty
table it returns an aggregate table with one row per distinct product — the
returned keys are distinct and are exactly the products occurring in the
table. -/
theorem aggregation_empty_error_iff (es : List Row) :
    (analise_por_produto es = Except.error "EmptyGroupError" ↔ es = [])
  ∧ ∀ out, analise_por_produto es = Except.ok out →
      (out.map ProdutoAgg.product).Nodup
      ∧ ∀ p : String, p ∈ out.map ProdutoAgg.product ↔ p ∈ es.map Row.product := by
  rcases hS : produtoAggsSorted es with _ | ⟨a, rest⟩
  · have hes : es = [] := (produtoAggsSorted_eq_nil es).mp hS
    constructor
    · rw [analise_por_produto, hS]
      simp [hes]
    · intro out hout
      rw [analise_por_produto, hS] at hout
      cases hout
  · have hes : es ≠ [] := by
      intro h
      rw [(produtoAggsSorted_eq_nil es).mpr h] at hS
      cases hS
    constructor
    · rw [analise_por_produto, hS]
      simp [hes]
    · intro out hout
      rw [analise_por_produto, hS] at hout
      have hout' : out = a :: rest := by
        cases hout
        rfl
      subst hout'
      have hperm : (a :: rest).Perm (produtoAggs es) := hS ▸ produtoAggsSorted_perm es
      have hmapperm : ((a :: rest).map ProdutoAgg.product).Perm
          ((produtoAggs es).map ProdutoAgg.product) := hperm.map _
      have haggmap : (produtoAggs es).map ProdutoAgg.product
          = firstSeen (es.map Row.product) := by
        unfold produtoAggs
        rw [List.map_map]
        have hcomp : ProdutoAgg.product ∘ produtoAggOf es = id := rfl
        rw [hcomp, List.map_id]
      constructor
      · rw [hmapperm.nodup_iff, haggmap]
        exact nodup_firstSeen _
      · intro p
        rw [hmapperm.mem_iff, haggmap, mem_firstSeen]

/-- Witness for C7: the empty table errors; a concrete one-row table does
not. -/
theorem aggregation_empty_error_iff_witness :
    analise_por_produto [] = Except.error "EmptyGroupError"
  ∧ analise_por_produto (preparar_dados (fun _ => 40) [⟨0, "A", "N", 10, 2⟩])
      ≠ Except.error "EmptyGroupError" :=
  ⟨(aggregation_empty_error_iff []).1.mpr rfl,
   fun h => (by
      intro hh
      simpa [preparar_dados, dropDuplicates] using congrArg List.length hh
      : preparar_dados (fun _ => 40) [⟨0, "A", "N", 10, 2⟩] ≠ [])
     ((aggregation_empty_error_iff _).1.mp h)⟩

/-- CLAIM C6 (amended): aggregation succeeds whenever some group has exactly
one row (the table is then nonempty), but the std statistic of a
single-observation group is missing (`NaN`: pandas sample std with
`ddof = 1`), not 0. -/
theorem single_observation_group_std (es : List Row) (p : String)
    (h1 : (es.filter fun r => r.product = p).length = 1) :
    (∃ out, analise_por_produto es = Except.ok out)
  ∧ ∀ out, analise_por_produto es = Except.ok out →
      ∀ a ∈ out, a.product = p → a.preco_var = none := by
  have hes : es ≠ [] := by
    intro h
    subst h
    simp at h1
  rcases hS : produtoAggsSorted es with _ | ⟨a0, rest⟩
  · exact absurd ((produtoAggsSorted_eq_nil es).mp hS) hes
  · constructor
    · exact ⟨a0 :: rest, by rw [analise_por_produto, hS]⟩
    · intro out hout a ha hap
      rw [analise_por_produto, hS] at hout
      have hout' : out = a0 :: rest := by
        cases hout
        rfl
      subst hout'
      have hmem : a ∈ produtoAggs es := ((hS ▸ produtoAggsSorted_perm es).mem_iff).mp ha
      obtain ⟨p', hp', rfl⟩ := List.mem_map.mp hmem
      have hpp : p' = p := hap
      subst hpp
      show (produtoAggOf es p').preco_var = none
      simp only [produtoAggOf]
      simp [sampleVar, h1]

/-- Witness for the amended C6 at a concrete one-row table. -/
theorem single_observation_group_std_witness :
    (∃ out, analise_por_produto (preparar_dados (fun _ => 40) [⟨0, "A", "N", 10, 2⟩])
        = Except.ok out)
  ∧ ∀ out, analise_por_produto (preparar_dados (fun _ => 40) [⟨0, "A", "N", 10, 2⟩])
        = Except.ok out →
      ∀ a ∈ out, a.product = "A" → a.preco_var = none :=
  single_observation_group_std _ "A" (by
    norm_num [preparar_dados, dropDuplicates, enrichRow, ma7Column, rollingMean7, mean, lastN,
      groupSeries, rankWithin, rawRevenue, dayName, priceCategory, orderValueCategory,
      diasOrdem, List.enum, List.enumFrom])

/-- CLAIM C6 (counterexample): on a table whose single product group has one
row, the aggregate's std-underlying statistic is missing (`none`), not 0 — the
aggregation succeeds but the claim's `std = 0` is false. -/
theorem single_row_std_not_zero_counterexample :
    analise_por_produto (preparar_dados (fun _ => 40) [⟨0, "A", "N", 10, 2⟩])
      = Except.ok [⟨"A", 2, 2, 1, 20, 20, 8, 8, 10, none, 40⟩]
  ∧ (none : Option ℚ) ≠ some 0 := by
  constructor
  · norm_num [analise_por_produto, produtoAggsSorted, produtoAggs, produtoAggOf, sampleVar,
      firstSeen, firstSeenAux, mean, preparar_dados, dropDuplicates, enrichRow, ma7Column,
      rollingMean7, lastN, groupSeries, rankWithin, rawRevenue, dayName, priceCategory,
      orderValueCategory, diasOrdem, List.enum, List.enumFrom]
  · simp

/-- Helper: summing a function over a duplicate-free key list after adding
`x` at one present key adds `x` to the total. -/
theorem sum_map_update {κ : Type} [DecidableEq κ] (ks : List κ) (c : κ) (x : ℚ) (S : κ → ℚ)
    (hnd : ks.Nodup) (hc : c ∈ ks) :
    (ks.map fun k => if k = c then x + S k else S k).sum = x + (ks.map S).sum := by
  induction ks with
  | nil => cases hc
  | cons k ks ih =>
    rcases List.nodup_cons.mp hnd with ⟨hk, hnd2⟩
    by_cases hkc : k = c
    · subst hkc
      have hmap : (ks.map fun k' => if k' = k then x + S k' else S k') = ks.map S := by
        apply List.map_congr_left
        intro a ha
        rw [if_neg]
        intro hac
        subst hac
        exact hk ha
      rw [List.map_cons, List.sum_cons, hmap, if_pos rfl, List.map_cons, List.sum_cons]
      ring
    · have hck : c ∈ ks := by
        rcases List.mem_cons.mp hc with h | h
        · exact absurd h.symm hkc
        · exact h
      simp only [List.map_cons, List.sum_cons, if_neg hkc, ih hnd2 hck]
      ring

/-- Helper: two nested filters collapse to one filter over the conjunction of
the predicates. -/
theorem filter_swap {α : Type} (l : List α) (p q : α → Bool) :
    (l.filter p).filter q = l.filter fun a => p a && q a := by
  rw [List.filter_filter]
  apply List.filter_congr
  intro a _
  exact Bool.and_comm _ _

/-- Helper: partitioning a sum over an `Option`-valued key: summing the
per-key filtered totals over a duplicate-free key list covering every
non-missing key value gives the total over the rows whose key is present. -/
theorem sum_over_optkey {α κ : Type} [DecidableEq κ] (g : α → Option κ) (m : α → ℚ)
    (ks : List κ) (hnd : ks.Nodup) :
    ∀ rows : List α, (∀ r ∈ rows, ∀ c, g r = some c → c ∈ ks) →
      (ks.map fun k => ((rows.filter fun r => g r = some k).map m).sum).sum
        = ((rows.filter fun r => (g r).isSome).map m).sum := by
  intro rows
  induction rows with
  | nil =>
    intro _
    simp
  | cons r rows ih =>
    intro hcov
    have hcov2 : ∀ x ∈ rows, ∀ c, g x = some c → c ∈ ks :=
      fun x hx => hcov x (List.mem_cons_of_mem _ hx)
    rcases hg : g r with _ | c
    · have hmap : (ks.map fun k => (((r :: rows).filter fun r' => g r' = some k).map m).sum)
          = ks.map fun k => ((rows.filter fun r' => g r' = some k).map m).sum := by
        apply List.map_congr_left
        intro k _
        rw [List.filter_cons]
        simp [hg]
      rw [hmap, ih hcov2, List.filter_cons]
      simp [hg]
    · have hc : c ∈ ks := hcov r (List.mem_cons_self r rows) c hg
      have hmap : (ks.map fun k => (((r :: rows).filter fun r' => g r' = some k).map m).sum)
          = ks.map fun k =>
              if k = c then m r + ((rows.filter fun r' => g r' = some k).map m).sum
              else ((rows.filter fun r' => g r' = some k).map m).sum := by
        apply List.map_congr_left
        intro k _
        rw [List.filter_cons]
        by_cases hkc : k = c
        · subst hkc
          simp [hg]
        · have hne : ¬ (g r = some k) := by
            rw [hg]
            simp only [Option.some.injEq]
            intro h'
            exact hkc h'.symm
          simp [hne, hkc]
      rw [hmap, sum_map_update ks c (m r) _ hnd hc, ih hcov2, List.filter_cons]
      simp [hg]

/-- Helper: the sum of every cell of a pivot table is the sum of the measure
over the rows whose row key and column key are both present. -/
theorem pivotCellTotal_eq {α : Type} (rows : List α) (rowKey colKey : α → Option String)
    (m : α → ℚ) :
    pivotCellTotal rows rowKey colKey m
      = ((rows.filter fun r => (rowKey r).isSome ∧ (colKey r).isSome).map m).sum := by
  unfold pivotCellTotal pivot_table
  rw [List.map_map]
  have hinner : ∀ rk : String,
      ((((pivotKeys rows colKey).map fun ck =>
          (ck, pivotCell rows rowKey colKey m rk ck)).map Prod.snd)).sum
        = (((rows.filter fun r => (colKey r).isSome).filter fun r =>
            rowKey r = some rk).map m).sum := by
    intro rk
    rw [List.map_map]
    have hcells : ((pivotKeys rows colKey).map
          (Prod.snd ∘ fun ck => (ck, pivotCell rows rowKey colKey m rk ck)))
        = (pivotKeys rows colKey).map fun ck =>
            (((rows.filter fun r => rowKey r = some rk).filter fun r =>
              colKey r = some ck).map m).sum := by
      apply List.map_congr_left
      intro ck _
      show pivotCell rows rowKey colKey m rk ck = _
      unfold pivotCell
      rw [filter_swap]
      congr 1
      congr 1
      apply List.filter_congr
      intro a _
      simp
    rw [hcells]
    rw [sum_over_optkey colKey m (pivotKeys rows colKey) (nodup_firstSeen _)
      (rows.filter fun r => rowKey r = some rk) ?hcov]
    case hcov =>
      intro r hr c hgc
      rw [pivotKeys, mem_firstSeen, List.mem_filterMap]
      exact ⟨r, (List.mem_filter.mp hr).1, hgc⟩
    congr 1
    congr 1
    rw [filter_swap, filter_swap]
    apply List.filter_congr
    intro a _
    exact Bool.and_comm _ _
  have houter : ((pivotKeys rows rowKey).map
        ((fun p : String × List (String × ℚ) => (p.2.map Prod.snd).sum) ∘ fun rk =>
          (rk, (pivotKeys rows colKey).map fun ck =>
            (ck, pivotCell rows rowKey colKey m rk ck))))
      = (pivotKeys rows rowKey).map fun rk =>
          (((rows.filter fun r => (colKey r).isSome).filter fun r =>
            rowKey r = some rk).map m).sum := by
    apply List.map_congr_left
    intro rk _
    exact hinner rk
  rw [houter]
  rw [sum_over_optkey rowKey m (pivotKeys rows rowKey) (nodup_firstSeen _)
    (rows.filter fun r => (colKey r).isSome) ?hcov2]
  case hcov2 =>
    intro r hr c hgc
    rw [pivotKeys, mem_firstSeen, List.mem_filterMap]
    exact ⟨r, (List.mem_filter.mp hr).1, hgc⟩
  congr 1
  congr 1
  rw [filter_swap]
  apply List.filter_congr
  intro a _
  simp [Bool.and_comm]

/-- CLAIM C3 (amended): for every enriched table and every pair of dimensions,
the pivot is dense — one row per observed row-key value, each carrying one
cell per observed column-key value — and the sum of all cells equals the sum
of the measure over the rows whose two key values are both present; when every
row carries both keys (as with the total dimensions product and region), the
cell total equals the total measure sum over the whole table.  For a dimension
with missing values (such as `price_category`) the cell total can fall short
of the whole-table total. -/
theorem crossTab_dense_and_total (es : List Row) (hne : es ≠ [])
    (rowKey colKey : Row → Option String) (m : Row → ℚ) :
    ((pivot_table es rowKey colKey m).map Prod.fst = pivotKeys es rowKey)
  ∧ (∀ pr ∈ pivot_table es rowKey colKey m, pr.2.map Prod.fst = pivotKeys es colKey)
  ∧ pivotCellTotal es rowKey colKey m
      = ((es.filter fun r => (rowKey r).isSome ∧ (colKey r).isSome).map m).sum
  ∧ ((∀ r ∈ es, (rowKey r).isSome ∧ (colKey r).isSome) →
      pivotCellTotal es rowKey colKey m = (es.map m).sum) := by
  refine ⟨?_, ?_, pivotCellTotal_eq es rowKey colKey m, ?_⟩
  · unfold pivot_table
    rw [List.map_map]
    have hcomp : (Prod.fst ∘ fun rk => (rk, (pivotKeys es colKey).map fun ck =>
        (ck, pivotCell es rowKey colKey m rk ck))) = id := rfl
    rw [hcomp, List.map_id]
  · intro pr hpr
    unfold pivot_table at hpr
    obtain ⟨rk, _, rfl⟩ := List.mem_map.mp hpr
    rw [List.map_map]
    have hcomp : (Prod.fst ∘ fun ck => (ck, pivotCell es rowKey colKey m rk ck)) = id := rfl
    rw [hcomp, List.map_id]
  · intro hall
    rw [pivotCellTotal_eq es rowKey colKey m]
    congr 1
    congr 1
    rw [List.filter_eq_self]
    intro r hr
    simpa using hall r hr

/-- Witness for the amended C3: the product × region revenue pivot of a
concrete table, where both dimensions are total, sums to the table's total
revenue. -/
theorem crossTab_dense_and_total_witness :
    pivotCellTotal (preparar_dados (fun _ => 40) [⟨0, "A", "N", 10, 2⟩])
        (fun r => some r.product) (fun r => some r.region) Row.revenue
      = ((preparar_dados (fun _ => 40) [⟨0, "A", "N", 10, 2⟩]).map Row.revenue).sum :=
  (crossTab_dense_and_total (preparar_dados (fun _ => 40) [⟨0, "A", "N", 10, 2⟩])
      (by
        intro h
        simpa [preparar_dados, dropDuplicates] using congrArg List.length h)
      (fun r => some r.product) (fun r => some r.region) Row.revenue).2.2.2
    (fun r _ => by simp)

/-- CLAIM C3 (counterexample): on a one-row table whose price (250) lies
outside every price bin, the região × categoria de preço pivot has no cells at
all, so its cell total 0 differs from the table's total revenue 250. -/
theorem crossTab_total_counterexample :
    pivotCellTotal (preparar_dados (fun _ => 40) [⟨0, "A", "N", 250, 1⟩])
        (fun r => some r.region) (fun r => r.price_category) Row.revenue
      ≠ ((preparar_dados (fun _ => 40) [⟨0, "A", "N", 250, 1⟩]).map Row.revenue).sum := by
  norm_num [pivotCellTotal, pivot_table, pivotKeys, pivotCell, firstSeen, firstSeenAux,
    preparar_dados, dropDuplicates, enrichRow, ma7Column, rollingMean7, mean, lastN,
    groupSeries, rankWithin, rawRevenue, dayName, priceCategory, orderValueCategory,
    diasOrdem, List.enum, List.enumFrom]

/-- Helper: `priceCategory` is missing exactly for prices outside `(0, 200]`. -/
theorem priceCategory_eq_none_iff (p : ℚ) :
    priceCategory p = none ↔ p ≤ 0 ∨ 200 < p := by
  unfold priceCategory
  split_ifs with h1 h2 h3 h4
  · simp only [reduceCtorEq, false_iff]
    push_neg
    exact ⟨by linarith [h1.1], by linarith [h1.2]⟩
  · simp only [reduceCtorEq, false_iff]
    push_neg
    exact ⟨by linarith [h2.1], by linarith [h2.2]⟩
  · simp only [reduceCtorEq, false_iff]
    push_neg
    exact ⟨by linarith [h3.1], by linarith [h3.2]⟩
  · simp only [reduceCtorEq, false_iff]
    push_neg
    exact ⟨by linarith [h4.1], by linarith [h4.2]⟩
  · simp only [true_iff]
    push_neg at h1 h2 h3 h4
    rcases le_or_lt p 0 with h | h
    · exact Or.inl h
    · exact Or.inr (h4 (h3 (h2 (h1 h))))

/-- Helper: `orderValueCategory` is missing exactly for revenues `≤ 0`. -/
theorem orderValueCategory_eq_none_iff (v : ℚ) :
    orderValueCategory v = none ↔ v ≤ 0 := by
  unfold orderValueCategory
  split_ifs with h1 h2 h3 h4
  · simp only [reduceCtorEq, false_iff]
    push_neg
    linarith [h1.1]
  · simp only [reduceCtorEq, false_iff]
    push_neg
    linarith [h2.1]
  · simp only [reduceCtorEq, false_iff]
    push_neg
    linarith [h3.1]
  · simp only [reduceCtorEq, false_iff]
    push_neg
    linarith [h4]
  · simp only [true_iff]
    push_neg at h1 h2 h3 h4
    by_contra hv
    push_neg at hv
    exact absurd (h3 (h2 (h1 hv))) (by linarith [h4])

/-- CLAIM C10: a row gets no `price_category` exactly when its price is ≤ 0 or
> 200, and no `order_value_category` exactly when its revenue is ≤ 0; the
região × categoria de preço pivot totals the revenue of only the rows whose
`price_category` is present, and there is a table on which that cell total is
strictly below the table's total revenue. -/
theorem missing_category_semantics (margins : ℕ → ℚ) (raw : List RawRow) :
    (∀ r ∈ preparar_dados margins raw,
        (r.price_category = none ↔ r.price ≤ 0 ∨ 200 < r.price)
      ∧ (r.order_value_category = none ↔ r.revenue ≤ 0))
  ∧ pivotCellTotal (preparar_dados margins raw) (fun r => some r.region)
        (fun r => r.price_category) Row.revenue
      = (((preparar_dados margins raw).filter fun r =>
          (r.price_category).isSome).map Row.revenue).sum
  ∧ ∃ margins' : ℕ → ℚ, ∃ raw' : List RawRow,
      pivotCellTotal (preparar_dados margins' raw') (fun r => some r.region)
          (fun r => r.price_category) Row.revenue
        < ((preparar_dados margins' raw').map Row.revenue).sum := by
  refine ⟨?_, ?_, ?_⟩
  · intro r hr
    unfold preparar_dados at hr
    simp only [List.mem_map] at hr
    obtain ⟨⟨i, x⟩, _, rfl⟩ := hr
    constructor
    · show priceCategory x.price = none ↔ _
      exact priceCategory_eq_none_iff x.price
    · show orderValueCategory (x.price * x.quantity) = none ↔ _
      exact orderValueCategory_eq_none_iff _
  · rw [pivotCellTotal_eq]
    congr 1
    congr 1
    apply List.filter_congr
    intro r _
    simp
  · refine ⟨fun _ => 40, [⟨0, "A", "N", 250, 1⟩], ?_⟩
    norm_num [pivotCellTotal, pivot_table, pivotKeys, pivotCell, firstSeen, firstSeenAux,
      preparar_dados, dropDuplicates, enrichRow, ma7Column, rollingMean7, mean, lastN,
      groupSeries, rankWithin, rawRevenue, dayName, priceCategory, orderValueCategory,
      diasOrdem, List.enum, List.enumFrom]

/-- Witness for C10: a concrete row with price 250 has no price category, and
the pivot shortfall is realized on its table. -/
theorem missing_category_semantics_witness :
    ((preparar_dados (fun _ => 40) [⟨0, "A", "N", 250, 1⟩]).getD 0 default).price_category
      = none :=
  ((missing_category_semantics (fun _ => 40) [⟨0, "A", "N", 250, 1⟩]).1
      ((preparar_dados (fun _ => 40) [⟨0, "A", "N", 250, 1⟩]).getD 0 default)
      (by
        norm_num [preparar_dados, dropDuplicates, enrichRow, ma7Column, rollingMean7, mean,
          lastN, groupSeries, rankWithin, rawRevenue, dayName, priceCategory,
          orderValueCategory, diasOrdem, List.enum, List.enumFrom])).1.mpr
    (Or.inr (by
      norm_num [preparar_dados, dropDuplicates, enrichRow, ma7Column, rollingMean7, mean,
        lastN, groupSeries, rankWithin, rawRevenue, dayName, priceCategory,
        orderValueCategory, diasOrdem, List.enum, List.enumFrom]))

/-- Helper: the successive pairs of a list with at least two elements. -/
theorem succPairs_cons (x y : ℚ) (rest : List ℚ) :
    succPairs (x :: y :: rest) = (x, y) :: succPairs (y :: rest) := rfl

/-- Helper: folding `FVal.add` over finite values starting from a finite value
sums them. -/
theorem foldl_FVal_add_fin (l : List ℚ) :
    ∀ a : ℚ, (l.map FVal.fin).foldl FVal.add (FVal.fin a) = FVal.fin (a + l.sum) := by
  induction l with
  | nil =>
    intro a
    simp
  | cons x l ih =>
    intro a
    rw [List.map_cons, List.foldl_cons]
    show (l.map FVal.fin).foldl FVal.add (FVal.fin (a + x)) = _
    rw [ih (a + x), List.sum_cons]
    rw [add_assoc]

/-- Helper: when no successive pair jumps from a zero to a nonzero value, the
non-`NaN` values of `pct_change` are exactly the finite changes the spec's
exclusion policy keeps. -/
theorem filter_steps :
    ∀ l : List ℚ, (∀ pc ∈ succPairs l, pc.1 = 0 → pc.2 = 0) →
      (List.zipWith pctChangeStep l (l.drop 1)).filter (fun v => v ≠ FVal.nan)
        = (specChanges l).map FVal.fin := by
  intro l
  induction l with
  | nil =>
    intro _
    simp [succPairs, specChanges]
  | cons x xs ih =>
    intro h
    cases xs with
    | nil =>
      simp [succPairs, specChanges]
    | cons y rest =>
      have hh : ∀ pc ∈ succPairs (y :: rest), pc.1 = 0 → pc.2 = 0 := by
        intro pc hpc
        exact h pc (by rw [succPairs_cons]; exact List.mem_cons_of_mem _ hpc)
      have hih := ih hh
      unfold specChanges at hih ⊢
      rw [show (x :: y :: rest).drop 1 = y :: rest from rfl,
        List.zipWith_cons_cons, succPairs_cons]
      by_cases hx : x = 0
      · have hy : y = 0 := h (x, y) (by rw [succPairs_cons]; exact List.mem_cons_self _ _) hx
        subst hx
        subst hy
        rw [List.filter_cons, List.filterMap_cons]
        simp only [pctChangeStep, if_pos rfl]
        simpa using hih
      · rw [List.filter_cons, List.filterMap_cons]
        simp only [pctChangeStep, if_neg hx]
        simpa [hx] using hih

/-- Helper: under the no-zero-to-nonzero-jump hypothesis, the code's
`pct_change().mean() * 100` equals the spec's exclusion-policy growth mean. -/
theorem growth_eq_spec_of_no_zero_jump (xs : List ℚ)
    (h : ∀ pc ∈ succPairs xs, pc.1 = 0 → pc.2 = 0) :
    (meanSkipna (pctChange xs)).mulC 100 = specGrowthFVal xs := by
  cases xs with
  | nil =>
    rfl
  | cons x xs' =>
    have hkey : (pctChange (x :: xs')).filter (fun v => v ≠ FVal.nan)
        = (specChanges (x :: xs')).map FVal.fin := by
      rw [pctChange, List.filter_cons]
      rw [if_neg (by simp)]
      exact filter_steps (x :: xs') h
    unfold meanSkipna specGrowthFVal specGrowthMean
    rw [hkey]
    rcases hch : specChanges (x :: xs') with _ | ⟨c, cs⟩
    · simp [FVal.mulC]
    · rw [if_neg (by simp), if_neg (by simp)]
      rw [foldl_FVal_add_fin (c :: cs) 0]
      simp only [FVal.divNat, FVal.mulC, List.length_map, List.length_cons]
      unfold mean
      rw [zero_add]
      rfl

/-- CLAIM C5 (amended): the day-over-day (and week-over-week) growth statistic
equals the exclusion-policy mean of successive percentage changes whenever
every successive pair with a zero prior value also has a zero current value
(such 0→0 pairs yield `NaN` and are skipped by the mean).  A pair with zero
prior and nonzero current is NOT excluded: it contributes an infinite
percentage change, so the hypothesis is needed. -/
theorem growth_mean_nan_skip_policy (es : List Row)
    (hd : ∀ pc ∈ succPairs (dailyRevenue es), pc.1 = 0 → pc.2 = 0)
    (hw : ∀ pc ∈ succPairs (vendas_semana es), pc.1 = 0 → pc.2 = 0) :
    crescimento_diario es = specGrowthFVal (dailyRevenue es)
  ∧ crescimento_semanal es = specGrowthFVal (vendas_semana es) :=
  ⟨growth_eq_spec_of_no_zero_jump _ hd, growth_eq_spec_of_no_zero_jump _ hw⟩

/-- Witness for the amended C5 at a table with transactions on two consecutive
days. -/
theorem growth_mean_nan_skip_policy_witness :
    crescimento_diario (preparar_dados (fun _ => 40) [⟨0, "A", "N", 10, 1⟩, ⟨1, "A", "N", 20, 1⟩])
      = specGrowthFVal (dailyRevenue
          (preparar_dados (fun _ => 40) [⟨0, "A", "N", 10, 1⟩, ⟨1, "A", "N", 20, 1⟩]))
  ∧ crescimento_semanal (preparar_dados (fun _ => 40) [⟨0, "A", "N", 10, 1⟩, ⟨1, "A", "N", 20, 1⟩])
      = specGrowthFVal (vendas_semana
          (preparar_dados (fun _ => 40) [⟨0, "A", "N", 10, 1⟩, ⟨1, "A", "N", 20, 1⟩])) :=
  growth_mean_nan_skip_policy _
    (by
      norm_num [dailyRevenue, vendas_diarias, minDate, maxDate, List.min?, List.max?,
        succPairs, preparar_dados, dropDuplicates, enrichRow, ma7Column, rollingMean7, mean,
        lastN, groupSeries, rankWithin, rawRevenue, dayName, priceCategory,
        orderValueCategory, diasOrdem, List.enum, List.enumFrom, List.range_succ])
    (by
      norm_num [vendas_semana, firstSeen, firstSeenAux, succPairs, preparar_dados,
        dropDuplicates, enrichRow, ma7Column, rollingMean7, mean, lastN, groupSeries,
        rankWithin, rawRevenue, dayName, priceCategory, orderValueCategory, diasOrdem,
        List.enum, List.enumFrom])

/-- CLAIM C5 (counterexample): with transactions of revenue 10 on days 0 and 2
only, the gap-filled daily series is `[10, 0, 10]`; the code's statistic is
`+∞` (the 0→10 pair contributes an infinite percentage change to the mean),
while the exclusion policy of the claim yields −100%. -/
theorem growth_infinite_counterexample :
    crescimento_diario (preparar_dados (fun _ => 40) [⟨0, "A", "N", 10, 1⟩, ⟨2, "A", "N", 10, 1⟩])
      = FVal.pinf
  ∧ specGrowthFVal (dailyRevenue
        (preparar_dados (fun _ => 40) [⟨0, "A", "N", 10, 1⟩, ⟨2, "A", "N", 10, 1⟩]))
      = FVal.fin (-100)
  ∧ FVal.pinf ≠ FVal.fin (-100) := by
  refine ⟨?_, ?_, by simp⟩
  · norm_num [crescimento_diario, dailyRevenue, vendas_diarias, minDate, maxDate, List.min?,
      List.max?, meanSkipna, pctChange, pctChangeStep, FVal.add, FVal.divNat, FVal.mulC,
      mean, preparar_dados, dropDuplicates, enrichRow, ma7Column, rollingMean7, lastN,
      groupSeries, rankWithin, rawRevenue, dayName, priceCategory, orderValueCategory,
      diasOrdem, List.enum, List.enumFrom, List.range_succ]
    simp [List.filter_cons, List.filter_nil, FVal.add]
  · norm_num [specGrowthFVal, specGrowthMean, specChanges, succPairs, dailyRevenue, vendas_diarias,
      minDate, maxDate, List.min?, List.max?, mean, preparar_dados, dropDuplicates,
      enrichRow, ma7Column, rollingMean7, lastN, groupSeries, rankWithin, rawRevenue,
      dayName, priceCategory, orderValueCategory, diasOrdem, List.enum, List.enumFrom,
      List.range_succ, List.filterMap_cons, List.filterMap_nil]

end SalesAnalysis
